import Mathlib

/-!
Verification development for the plover_repeat plugin.

The repository has two source files:
  * `src/plover_repeat/plover_repeat.py` — the main variant: repeat-N commands,
    three memory commands (toggle / paste / reset), an undo command, a bounded
    stroke history persisted to a file, and a `_processing` reentrancy guard.
  * `src/plover_repeat/__init__.py` — the mark variant: repeat-N plus a mark
    command and a repeat-to-mark command (several method bodies in this file are
    `pass` stubs).

The shallow embedding below models each stroke by its opaque rtfcre string
(`on_stroked` reads `stroke.rtfcre` and only ever compares it for equality and
dictionary membership).  Files are modelled as `Option (List String)`: `none`
is a missing file, `some lines` is the file's contents as a list of lines
without their terminating newlines (the plugin writes one identifier per line).
Calls into the host (`engine._machine_stroke_callback`) and flips of the
`_processing` guard are recorded in an event trace.  I/O on the debug log never
affects the dispatcher state and is omitted.  File writes are modelled on their
success path; a failed write is caught and logged in the source and leaves the
state authoritative, which the claims here do not touch.
-/

namespace PloverRepeat

/-- One observable action of the engine: flipping the `_processing` guard,
sending the undo stroke through the machine callback (`send_undo`), or
injecting a replayed stroke through the machine callback (`replay_strokes`). -/
inductive Event where
  | setGuard : Bool → Event
  | undoCall : Event
  | emitCall : String → Event
deriving DecidableEq, Repr

/-- The strokes injected (replayed) in a trace, in order. -/
def emittedStrokes (ev : List Event) : List String :=
  ev.filterMap (fun e => match e with
    | Event.emitCall s => some s
    | _ => none)

def isUndo : Event → Bool
  | Event.undoCall => true
  | _ => false

/-- Number of undo calls in a trace. -/
def undoCount (ev : List Event) : Nat := (ev.filter isUndo).length

/-- Characters removed by Python `str.strip()` (the ASCII whitespace set;
the identifiers in play are ASCII). -/
def isPySpace (c : Char) : Bool :=
  c = ' ' || c = '\t' || c = '\n' || c = '\r' || c = '\x0b' || c = '\x0c'

/-- Python `line.strip()`. -/
def pyStrip (s : String) : String :=
  String.mk (((s.toList.dropWhile isPySpace).reverse.dropWhile isPySpace).reverse)

/-- `collections.deque(maxlen := m).append x`: append on the right, evicting
from the left when the capacity is exceeded. -/
def dequeAppend (maxlen : Nat) (l : List String) (x : String) : List String :=
  let l' := l ++ [x]
  if maxlen < l'.length then l'.drop (l'.length - maxlen) else l'

/-- Python `l[-n:]` for a list `l` (the whole list when `n = 0`). -/
def pySliceLastN (l : List String) (n : Nat) : List String :=
  if n = 0 then l else l.drop (l.length - n)

/-- `PloverRepeat.MAX_HISTORY` in `plover_repeat.py`. -/
def MAX_HISTORY : Nat := 100

/-- `PloverRepeat.REPEAT_STROKES`: the fixed binary repeat dictionary. -/
def REPEAT_STROKES : List (String × Nat) :=
  [("RA*PT", 1), ("RO*PT", 2), ("RAO*PT", 3), ("R*EPT", 4), ("RA*EPT", 5),
   ("RO*EPT", 6), ("RAO*EPT", 7), ("R*UPT", 8), ("RA*UPT", 9), ("RO*UPT", 10),
   ("RAO*UPT", 11), ("R*EUPT", 12), ("RA*EUPT", 13), ("RO*EUPT", 14), ("RAO*EUPT", 15)]

/-- Dictionary membership/`[]` on `REPEAT_STROKES` (`stroke_str in self.REPEAT_STROKES`
followed by `self.REPEAT_STROKES[stroke_str]`). -/
def lookupRepeat : List (String × Nat) → String → Option Nat
  | [], _ => none
  | (k, v) :: t, s => if s = k then some v else lookupRepeat t s

def MEMORY_TOGGLE_STROKE : String := "PO*FP"
def MEMORY_PASTE_STROKE : String := "SKWR*PL"
def MEMORY_RESET_STROKE : String := "R*ET"
def UNDO_STROKE : String := "*"

/-- The mutable state of a `PloverRepeat` instance from `plover_repeat.py`,
together with the contents of its two persisted files. -/
structure EngineState where
  stroke_history : List String
  is_recording_memory : Bool
  processing : Bool
  history_file : Option (List String)
  memory_file : Option (List String)
deriving DecidableEq, Repr

/-- Fresh instance (`__init__`) with neither file present on disk. -/
def initState : EngineState :=
  { stroke_history := []
    is_recording_memory := false
    processing := false
    history_file := none
    memory_file := none }

/-- `load_history`: if the history file exists, strip each line and append every
non-empty result to the (maxlen-bounded) deque. -/
def load_history (s : EngineState) : EngineState :=
  match s.history_file with
  | none => s
  | some lines =>
      { s with stroke_history :=
          (((lines.map pyStrip).filter (fun x => x ≠ "")).foldl
            (dequeAppend MAX_HISTORY) s.stroke_history) }

/-- `save_history`: overwrite the history file with one identifier per line. -/
def save_history (s : EngineState) : EngineState :=
  { s with history_file := some s.stroke_history }

/-- `save_history_live` just calls `save_history`. -/
def save_history_live (s : EngineState) : EngineState := save_history s

/-- `save_to_memory`: append one identifier to the memory file (mode `'a'`
creates the file when missing). -/
def save_to_memory (s : EngineState) (stroke_str : String) : EngineState :=
  { s with memory_file := some ((s.memory_file.getD []) ++ [stroke_str]) }

/-- `load_memory`: read the memory file (if present), strip each line, keep the
non-empty results, without clearing the file. -/
def load_memory (s : EngineState) : List String :=
  match s.memory_file with
  | none => []
  | some lines => (lines.map pyStrip).filter (fun x => x ≠ "")

/-- `clear_memory`: truncate the memory file. -/
def clear_memory (s : EngineState) : EngineState :=
  { s with memory_file := some [] }

/-- `start` (minus the external hook/debug-log plumbing): truncate the history
file, then call `load_history`.  The clear comes first in the source
(lines 45–51), the load after (line 54). -/
def start (s : EngineState) : EngineState :=
  load_history { s with history_file := some [] }

/-- `send_undo`: set `_processing`, send the undo stroke through the machine
callback, and clear `_processing` in the `finally` block.  The single callback
invocation is recorded whether or not it raises; any exception is caught. -/
def send_undo (s : EngineState) : EngineState × List Event :=
  ({ s with processing := false },
   [Event.setGuard true, Event.undoCall, Event.setGuard false])

/-- The emit calls of `replay_strokes`'s loop under a per-call success oracle
`emitOk` (argument: index of the call within the batch): each stroke is sent in
order; a raising call is still an invocation, and the exception aborts the rest
of the loop. -/
def replay_emits (emitOk : Nat → Bool) : Nat → List String → List Event
  | _, [] => []
  | i, x :: rest =>
      if emitOk i then Event.emitCall x :: replay_emits emitOk (i + 1) rest
      else [Event.emitCall x]

/-- `replay_strokes`: set `_processing`, send each stroke through the machine
callback (aborting on an exception, which is caught), and clear `_processing`
in the `finally` block. -/
def replay_strokes (emitOk : Nat → Bool) (s : EngineState) (strokes : List String) :
    EngineState × List Event :=
  ({ s with processing := false },
   Event.setGuard true :: (replay_emits emitOk 0 strokes ++ [Event.setGuard false]))

/-- `repeat_last_n`: bail out when `n` exceeds the history length, otherwise
replay `list(self.stroke_history)[-n:]`. -/
def repeat_last_n (emitOk : Nat → Bool) (s : EngineState) (n : Nat) :
    EngineState × List Event :=
  if s.stroke_history.length < n then (s, [])
  else replay_strokes emitOk s (pySliceLastN s.stroke_history n)

/-- `on_stroked` from `plover_repeat.py`, on the stroke's rtfcre string, under
the emission success oracle `emitOk`. -/
def on_stroked (emitOk : Nat → Bool) (s : EngineState) (stroke_str : String) :
    EngineState × List Event :=
  if s.processing then (s, [])
  else
    match lookupRepeat REPEAT_STROKES stroke_str with
    | some n =>
        let r1 := send_undo s
        let r2 := repeat_last_n emitOk r1.1 n
        (r2.1, r1.2 ++ r2.2)
    | none =>
        if stroke_str = MEMORY_TOGGLE_STROKE then
          let r1 := send_undo s
          ({ r1.1 with is_recording_memory := !r1.1.is_recording_memory }, r1.2)
        else if stroke_str = MEMORY_PASTE_STROKE then
          let r1 := send_undo s
          let r2 := replay_strokes emitOk r1.1 (load_memory r1.1)
          (r2.1, r1.2 ++ r2.2)
        else if stroke_str = MEMORY_RESET_STROKE then
          let r1 := send_undo s
          let s2 := clear_memory r1.1
          ({ s2 with is_recording_memory := false }, r1.2)
        else if stroke_str = UNDO_STROKE then
          if 0 < s.stroke_history.length then
            (save_history_live { s with stroke_history := s.stroke_history.dropLast }, [])
          else (s, [])
        else
          let s1 := if s.is_recording_memory then save_to_memory s stroke_str else s
          (save_history_live
            { s1 with stroke_history := dequeAppend MAX_HISTORY s1.stroke_history stroke_str },
           [])

/-- The all-successful emission oracle: the replay port never raises. -/
def allOk : Nat → Bool := fun _ => true

/-- Fold `on_stroked` (with a non-raising port) over a list of incoming strokes. -/
def runStrokes (s : EngineState) (l : List String) : EngineState :=
  l.foldl (fun s str => (on_stroked allOk s str).1) s

/-- Whether a stroke string is one of the reserved command strokes of
`plover_repeat.py`. -/
def isCommand (stroke_str : String) : Bool :=
  (lookupRepeat REPEAT_STROKES stroke_str).isSome
    || stroke_str = MEMORY_TOGGLE_STROKE
    || stroke_str = MEMORY_PASTE_STROKE
    || stroke_str = MEMORY_RESET_STROKE
    || stroke_str = UNDO_STROKE

/-- A concrete input sequence of `MAX_HISTORY + 1` distinct non-command
strokes, used to witness the eviction behavior. -/
def wStrokes : List String := (List.range (MAX_HISTORY + 1)).map (fun i => "S" ++ toString i)

/-- A concrete emission oracle that raises on the second emit call of a batch
(index 1) and succeeds before it. -/
def failAt1 : Nat → Bool := fun j => decide (j < 1)

end PloverRepeat

namespace MarkVariant

/-!
The mark variant, `src/plover_repeat/__init__.py`.  In that file
`load_history`, `save_history`, `repeat_last_n` and `repeat_from_mark` all
have empty (`pass`) bodies, so they change nothing and emit nothing; they are
embedded as the no-ops they are.
-/

open PloverRepeat (Event emittedStrokes dequeAppend MAX_HISTORY REPEAT_STROKES lookupRepeat)

def MARK_STROKE : String := "#-FT"
def REPEAT_TO_STROKE : String := "#-FD"

/-- The mutable state of a `PloverRepeat` instance from `__init__.py`. -/
structure MState where
  stroke_history : List String
  mark_position : Option Nat
  processing : Bool
deriving DecidableEq, Repr

/-- Fresh instance (`__init__`). -/
def mInit : MState :=
  { stroke_history := [], mark_position := none, processing := false }

/-- `repeat_last_n` in `__init__.py` has a `pass` body: no effect, no events. -/
def repeat_last_n (s : MState) (_n : Nat) : MState × List Event := (s, [])

/-- `repeat_from_mark` in `__init__.py` has a `pass` body (despite its
docstring "Repeat all strokes from mark to current position"): no effect,
no events. -/
def repeat_from_mark (s : MState) : MState × List Event := (s, [])

/-- `on_stroked` from `__init__.py`, on the stroke's rtfcre string. -/
def on_stroked (s : MState) (stroke_str : String) : MState × List Event :=
  if s.processing then (s, [])
  else
    match lookupRepeat REPEAT_STROKES stroke_str with
    | some n => repeat_last_n s n
    | none =>
        if stroke_str = MARK_STROKE then
          ({ s with mark_position := some s.stroke_history.length }, [])
        else if stroke_str = REPEAT_TO_STROKE then
          repeat_from_mark s
        else
          ({ s with stroke_history := dequeAppend MAX_HISTORY s.stroke_history stroke_str },
           [])

/-- Fold `on_stroked` over a list of incoming strokes. -/
def runStrokes (s : MState) (l : List String) : MState :=
  l.foldl (fun s str => (on_stroked s str).1) s

/-- Whether a stroke string is one of the reserved command strokes of
`__init__.py`. -/
def isCommand (stroke_str : String) : Bool :=
  (lookupRepeat REPEAT_STROKES stroke_str).isSome
    || stroke_str = MARK_STROKE
    || stroke_str = REPEAT_TO_STROKE

end MarkVariant

/-! ### Helper lemmas -/

namespace PloverRepeat

lemma take_append_take {α : Type} (c d : List α) (n : Nat) :
    (c ++ d.take n).take n = (c ++ d).take n := by
  rw [List.take_append_eq_append_take, List.take_append_eq_append_take, List.take_take]
  congr 1
  congr 1
  omega

lemma rtake_append_rtake {α : Type} (a b : List α) (n : Nat) :
    (a.rtake n ++ b).rtake n = (a ++ b).rtake n := by
  simp only [List.rtake_eq_reverse_take_reverse, List.reverse_append, List.reverse_reverse]
  rw [take_append_take]

lemma dequeAppend_eq_rtake (m : Nat) (l : List String) (x : String) :
    dequeAppend m l x = (l ++ [x]).rtake m := by
  unfold dequeAppend List.rtake
  simp only [List.length_append, List.length_singleton]
  by_cases hm : m < l.length + 1
  · rw [if_pos hm]
  · rw [if_neg hm]
    have : l.length + 1 - m = 0 := by omega
    rw [this, List.drop_zero]

lemma dequeAppend_length (m : Nat) (l : List String) (x : String) :
    (dequeAppend m l x).length = min m (l.length + 1) := by
  unfold dequeAppend
  simp only [List.length_append, List.length_singleton]
  by_cases hm : m < l.length + 1
  · rw [if_pos hm, List.length_drop]
    simp only [List.length_append, List.length_singleton]
    omega
  · rw [if_neg hm]
    simp only [List.length_append, List.length_singleton]
    omega

lemma foldl_dequeAppend_rtake (m : Nat) :
    ∀ (l h : List String), h.length ≤ m →
      l.foldl (dequeAppend m) h = (h ++ l).rtake m := by
  intro l
  induction l with
  | nil =>
      intro h hh
      simp only [List.foldl_nil, List.append_nil, List.rtake]
      have : h.length - m = 0 := by omega
      rw [this, List.drop_zero]
  | cons x t ih =>
      intro h hh
      rw [List.foldl_cons, ih (dequeAppend m h x) (by rw [dequeAppend_length]; omega),
        dequeAppend_eq_rtake m h x, rtake_append_rtake]
      simp

lemma foldl_dequeAppend_no_evict (m : Nat) :
    ∀ (l h : List String), h.length + l.length ≤ m →
      l.foldl (dequeAppend m) h = h ++ l := by
  intro l
  induction l with
  | nil => intro h _; simp
  | cons x t ih =>
      intro h hh
      simp only [List.length_cons] at hh
      rw [List.foldl_cons]
      have hx : dequeAppend m h x = h ++ [x] := by
        unfold dequeAppend
        rw [if_neg (by simp only [List.length_append, List.length_singleton]; omega)]
      rw [hx, ih (h ++ [x])
        (by simp only [List.length_append, List.length_singleton]; omega)]
      simp

lemma lookupRepeat_pos :
    ∀ (l : List (String × Nat)), (∀ p ∈ l, 1 ≤ p.2) →
      ∀ (s : String) (n : Nat), lookupRepeat l s = some n → 1 ≤ n := by
  intro l
  induction l with
  | nil => intro _ s n h; simp [lookupRepeat] at h
  | cons p t ih =>
      intro hall s n h
      obtain ⟨k, v⟩ := p
      simp only [lookupRepeat] at h
      by_cases hk : s = k
      · rw [if_pos hk] at h
        have hv : 1 ≤ v := hall (k, v) (by simp)
        exact (Option.some.inj h) ▸ hv
      · rw [if_neg hk] at h
        exact ih (fun p hp => hall p (List.mem_cons_of_mem _ hp)) s n h

lemma repeat_lookup_pos {s : String} {n : Nat}
    (h : lookupRepeat REPEAT_STROKES s = some n) : 1 ≤ n :=
  lookupRepeat_pos REPEAT_STROKES (by decide) s n h

lemma engine_eta (s : EngineState) (h : s.processing = false) :
    ({ s with processing := false } : EngineState) = s := by
  cases s
  simp_all

@[simp]
lemma emittedStrokes_nil : emittedStrokes [] = [] := rfl

@[simp]
lemma emittedStrokes_cons_setGuard (b : Bool) (t : List Event) :
    emittedStrokes (Event.setGuard b :: t) = emittedStrokes t := rfl

@[simp]
lemma emittedStrokes_cons_undo (t : List Event) :
    emittedStrokes (Event.undoCall :: t) = emittedStrokes t := rfl

@[simp]
lemma emittedStrokes_cons_emit (x : String) (t : List Event) :
    emittedStrokes (Event.emitCall x :: t) = x :: emittedStrokes t := rfl

@[simp]
lemma emittedStrokes_append (a b : List Event) :
    emittedStrokes (a ++ b) = emittedStrokes a ++ emittedStrokes b := by
  induction a with
  | nil => rfl
  | cons e t ih => cases e <;> simp [ih]

@[simp]
lemma emittedStrokes_map_emit (l : List String) :
    emittedStrokes (l.map Event.emitCall) = l := by
  induction l with
  | nil => rfl
  | cons x t ih => simp [ih]

@[simp]
lemma undoCount_nil : undoCount [] = 0 := rfl

@[simp]
lemma undoCount_cons_setGuard (b : Bool) (t : List Event) :
    undoCount (Event.setGuard b :: t) = undoCount t := rfl

@[simp]
lemma undoCount_cons_undo (t : List Event) :
    undoCount (Event.undoCall :: t) = undoCount t + 1 := by
  simp [undoCount, isUndo, List.filter]

@[simp]
lemma undoCount_cons_emit (x : String) (t : List Event) :
    undoCount (Event.emitCall x :: t) = undoCount t := rfl

@[simp]
lemma undoCount_append (a b : List Event) :
    undoCount (a ++ b) = undoCount a + undoCount b := by
  induction a with
  | nil => simp
  | cons e t ih =>
      cases e with
      | setGuard b => simp [ih]
      | undoCall => simp [ih]; omega
      | emitCall x => simp [ih]

@[simp]
lemma undoCount_map_emit (l : List String) :
    undoCount (l.map Event.emitCall) = 0 := by
  induction l with
  | nil => rfl
  | cons x t ih => simp [ih]

@[simp]
lemma undoCount_drop_map_emit (l : List String) (k : Nat) :
    undoCount ((l.map Event.emitCall).drop k) = 0 := by
  rw [← List.map_drop]
  exact undoCount_map_emit _

@[simp]
lemma emittedStrokes_drop_map_emit (l : List String) (k : Nat) :
    emittedStrokes ((l.map Event.emitCall).drop k) = l.drop k := by
  rw [← List.map_drop]
  exact emittedStrokes_map_emit _

lemma replay_emits_allOk (l : List String) :
    ∀ i, replay_emits allOk i l = l.map Event.emitCall := by
  induction l with
  | nil => intro i; rfl
  | cons x t ih => intro i; simp [replay_emits, allOk, ih]

lemma isCommand_false_elim {x : String} (hc : isCommand x = false) :
    lookupRepeat REPEAT_STROKES x = none ∧ x ≠ MEMORY_TOGGLE_STROKE ∧
      x ≠ MEMORY_PASTE_STROKE ∧ x ≠ MEMORY_RESET_STROKE ∧ x ≠ UNDO_STROKE := by
  simp only [isCommand, Bool.or_eq_false_iff, decide_eq_false_iff_not] at hc
  obtain ⟨⟨⟨⟨h1, h2⟩, h3⟩, h4⟩, h5⟩ := hc
  refine ⟨?_, h2, h3, h4, h5⟩
  cases hopt : lookupRepeat REPEAT_STROKES x with
  | none => rfl
  | some n => rw [hopt] at h1; simp at h1

lemma on_stroked_noncommand (emitOk : Nat → Bool) (s : EngineState) (x : String)
    (hp : s.processing = false) (hc : isCommand x = false) :
    on_stroked emitOk s x =
      ({ s with
          stroke_history := dequeAppend MAX_HISTORY s.stroke_history x,
          history_file := some (dequeAppend MAX_HISTORY s.stroke_history x),
          memory_file :=
            if s.is_recording_memory then some (s.memory_file.getD [] ++ [x])
            else s.memory_file },
       []) := by
  obtain ⟨h1, h2, h3, h4, h5⟩ := isCommand_false_elim hc
  by_cases hr : s.is_recording_memory
  · simp [on_stroked, hp, h1, h2, h3, h4, h5, hr, save_history_live, save_history,
      save_to_memory]
  · simp [on_stroked, hp, h1, h2, h3, h4, h5, hr, save_history_live, save_history]

lemma on_stroked_processing (emitOk : Nat → Bool) (s : EngineState) (str : String)
    (h : s.processing = false) : ((on_stroked emitOk s str).1).processing = false := by
  unfold on_stroked
  rw [if_neg (by rw [h]; exact Bool.false_ne_true)]
  cases hl : lookupRepeat REPEAT_STROKES str with
  | some n =>
      simp only [send_undo, repeat_last_n]
      split
      · exact rfl
      · simp [replay_strokes]
  | none =>
      simp only []
      split
      · simp [send_undo]
      · split
        · simp [send_undo, replay_strokes]
        · split
          · simp [send_undo, clear_memory]
          · split
            · split
              · simp [save_history_live, save_history, h]
              · exact h
            · split <;> simp [save_history_live, save_history, save_to_memory, h]

lemma on_stroked_toggle (emitOk : Nat → Bool) (s : EngineState)
    (hp : s.processing = false) :
    on_stroked emitOk s MEMORY_TOGGLE_STROKE =
      ({ s with is_recording_memory := !s.is_recording_memory, processing := false },
       [Event.setGuard true, Event.undoCall, Event.setGuard false]) := by
  have h1 : lookupRepeat REPEAT_STROKES MEMORY_TOGGLE_STROKE = none := by decide
  simp [on_stroked, hp, h1, send_undo]

lemma on_stroked_paste (emitOk : Nat → Bool) (s : EngineState)
    (hp : s.processing = false) :
    on_stroked emitOk s MEMORY_PASTE_STROKE =
      ({ s with processing := false },
       Event.setGuard true :: Event.undoCall :: Event.setGuard false :: Event.setGuard true ::
         (replay_emits emitOk 0 (load_memory s) ++ [Event.setGuard false])) := by
  have h1 : lookupRepeat REPEAT_STROKES MEMORY_PASTE_STROKE = none := by decide
  have h2 : MEMORY_PASTE_STROKE ≠ MEMORY_TOGGLE_STROKE := by decide
  simp [on_stroked, hp, h1, h2, send_undo, replay_strokes, load_memory]

lemma on_stroked_reset (emitOk : Nat → Bool) (s : EngineState)
    (hp : s.processing = false) :
    on_stroked emitOk s MEMORY_RESET_STROKE =
      ({ s with memory_file := some [], is_recording_memory := false, processing := false },
       [Event.setGuard true, Event.undoCall, Event.setGuard false]) := by
  have h1 : lookupRepeat REPEAT_STROKES MEMORY_RESET_STROKE = none := by decide
  have h2 : MEMORY_RESET_STROKE ≠ MEMORY_TOGGLE_STROKE := by decide
  have h3 : MEMORY_RESET_STROKE ≠ MEMORY_PASTE_STROKE := by decide
  simp [on_stroked, hp, h1, h2, h3, send_undo, clear_memory]

lemma on_stroked_undo_stroke (emitOk : Nat → Bool) (s : EngineState)
    (hp : s.processing = false) :
    on_stroked emitOk s UNDO_STROKE =
      (if 0 < s.stroke_history.length then
        ({ s with
            stroke_history := s.stroke_history.dropLast,
            history_file := some s.stroke_history.dropLast }, ([] : List Event))
       else (s, [])) := by
  have h1 : lookupRepeat REPEAT_STROKES UNDO_STROKE = none := by decide
  have h2 : UNDO_STROKE ≠ MEMORY_TOGGLE_STROKE := by decide
  have h3 : UNDO_STROKE ≠ MEMORY_PASTE_STROKE := by decide
  have h4 : UNDO_STROKE ≠ MEMORY_RESET_STROKE := by decide
  simp only [on_stroked, hp, Bool.false_eq_true, if_false, h1, if_neg h2, if_neg h3,
    if_neg h4, if_pos rfl, save_history_live, save_history]
  simp

lemma on_stroked_repeat (emitOk : Nat → Bool) (s : EngineState) (str : String) (n : Nat)
    (hp : s.processing = false) (hn : lookupRepeat REPEAT_STROKES str = some n) :
    on_stroked emitOk s str =
      (if s.stroke_history.length < n then
        ({ s with processing := false },
         [Event.setGuard true, Event.undoCall, Event.setGuard false])
       else
        ({ s with processing := false },
         Event.setGuard true :: Event.undoCall :: Event.setGuard false :: Event.setGuard true ::
           (replay_emits emitOk 0 (pySliceLastN s.stroke_history n) ++
             [Event.setGuard false]))) := by
  simp only [on_stroked, hp, Bool.false_eq_true, if_false, hn, send_undo, repeat_last_n,
    replay_strokes]
  by_cases hlt : s.stroke_history.length < n
  · simp [hlt]
  · simp [hlt]

lemma repeat_last_n_history (emitOk : Nat → Bool) (s : EngineState) (n : Nat) :
    (repeat_last_n emitOk s n).1.stroke_history = s.stroke_history := by
  unfold repeat_last_n replay_strokes
  split <;> rfl

lemma on_stroked_length_le (emitOk : Nat → Bool) (s : EngineState) (str : String)
    (h : s.stroke_history.length ≤ MAX_HISTORY) :
    ((on_stroked emitOk s str).1).stroke_history.length ≤ MAX_HISTORY := by
  unfold on_stroked
  split
  · exact h
  · split
    · simpa [repeat_last_n_history, send_undo] using h
    · split
      · simpa [send_undo] using h
      · split
        · simpa [send_undo, replay_strokes] using h
        · split
          · simpa [send_undo, clear_memory] using h
          · split
            · split
              · simp only [save_history_live, save_history]
                have := s.stroke_history.length_dropLast
                simp only [this]
                omega
              · exact h
            · by_cases hr : s.is_recording_memory = true
              · simp [hr, save_history_live, save_history, save_to_memory,
                  dequeAppend_length]
              · simp [hr, save_history_live, save_history, dequeAppend_length]

lemma runStrokes_nil (s : EngineState) : runStrokes s [] = s := rfl

lemma runStrokes_cons (s : EngineState) (x : String) (t : List String) :
    runStrokes s (x :: t) = runStrokes (on_stroked allOk s x).1 t := rfl

lemma runStrokes_length_le :
    ∀ (l : List String) (s : EngineState), s.stroke_history.length ≤ MAX_HISTORY →
      (runStrokes s l).stroke_history.length ≤ MAX_HISTORY := by
  intro l
  induction l with
  | nil => intro s h; exact h
  | cons x t ih =>
      intro s h
      rw [runStrokes_cons]
      exact ih _ (on_stroked_length_le allOk s x h)

lemma runStrokes_noncommand :
    ∀ (l : List String) (s : EngineState), s.processing = false →
      (∀ x ∈ l, isCommand x = false) →
      (runStrokes s l).stroke_history =
          l.foldl (dequeAppend MAX_HISTORY) s.stroke_history ∧
        (runStrokes s l).processing = false := by
  intro l
  induction l with
  | nil => intro s hp _; exact ⟨rfl, hp⟩
  | cons x t ih =>
      intro s hp hall
      rw [runStrokes_cons, List.foldl_cons]
      rw [on_stroked_noncommand allOk s x hp (hall x (by simp))]
      exact ih _ hp (fun y hy => hall y (List.mem_cons_of_mem _ hy))

lemma replay_emits_is_emit (emitOk : Nat → Bool) :
    ∀ (l : List String) (i : Nat) (e : Event),
      e ∈ replay_emits emitOk i l → ∃ x, e = Event.emitCall x := by
  intro l
  induction l with
  | nil => intro i e he; simp [replay_emits] at he
  | cons x t ih =>
      intro i e he
      unfold replay_emits at he
      by_cases hi : emitOk i = true
      · rw [if_pos hi] at he
        rcases List.mem_cons.mp he with h | h
        · exact ⟨x, h⟩
        · exact ih (i + 1) e h
      · rw [if_neg hi] at he
        simp at he
        exact ⟨x, he⟩

lemma replay_emits_take (emitOk : Nat → Bool) :
    ∀ (l : List String) (i : Nat),
      ∃ k, emittedStrokes (replay_emits emitOk i l) = l.take k := by
  intro l
  induction l with
  | nil => intro i; exact ⟨0, rfl⟩
  | cons x t ih =>
      intro i
      unfold replay_emits
      by_cases hi : emitOk i = true
      · rw [if_pos hi]
        obtain ⟨k, hk⟩ := ih (i + 1)
        exact ⟨k + 1, by simp [hk]⟩
      · rw [if_neg hi]
        exact ⟨1, by simp⟩

lemma replay_emits_of_all_true (emitOk : Nat → Bool) (hall : ∀ j, emitOk j = true) :
    ∀ (l : List String) (i : Nat), replay_emits emitOk i l = l.map Event.emitCall := by
  intro l
  induction l with
  | nil => intro i; rfl
  | cons x t ih => intro i; simp [replay_emits, hall, ih]

lemma replay_emits_fail (emitOk : Nat → Bool) :
    ∀ (l : List String) (i0 i : Nat), i < l.length →
      (∀ j, j < i → emitOk (i0 + j) = true) → emitOk (i0 + i) = false →
      emittedStrokes (replay_emits emitOk i0 l) = l.take (i + 1) := by
  intro l
  induction l with
  | nil => intro i0 i hi _ _; simp at hi
  | cons x t ih =>
      intro i0 i hi hok hfail
      unfold replay_emits
      cases i with
      | zero =>
          rw [if_neg (by simpa using hfail)]
          simp
      | succ i' =>
          have h0 : emitOk i0 = true := by simpa using hok 0 (Nat.succ_pos i')
          rw [if_pos h0]
          have hok' : ∀ j, j < i' → emitOk (i0 + 1 + j) = true := by
            intro j hj
            have := hok (j + 1) (by omega)
            rwa [show i0 + (j + 1) = i0 + 1 + j by omega] at this
          have hfail' : emitOk (i0 + 1 + i') = false := by
            rwa [show i0 + 1 + i' = i0 + (i' + 1) by omega]
          have := ih (i0 + 1) i' (by simpa using hi) hok' hfail'
          simp [this]

end PloverRepeat

namespace MarkVariant

open PloverRepeat (Event emittedStrokes dequeAppend MAX_HISTORY REPEAT_STROKES lookupRepeat)

lemma m_isCommand_false_elim {x : String} (hc : isCommand x = false) :
    lookupRepeat REPEAT_STROKES x = none ∧ x ≠ MARK_STROKE ∧ x ≠ REPEAT_TO_STROKE := by
  simp only [isCommand, Bool.or_eq_false_iff, decide_eq_false_iff_not] at hc
  obtain ⟨⟨h1, h2⟩, h3⟩ := hc
  refine ⟨?_, h2, h3⟩
  cases hopt : lookupRepeat REPEAT_STROKES x with
  | none => rfl
  | some n => rw [hopt] at h1; simp at h1

lemma m_on_stroked_mark (t : MState) (hp : t.processing = false) :
    on_stroked t MARK_STROKE =
      ({ t with mark_position := some t.stroke_history.length }, []) := by
  have h1 : lookupRepeat REPEAT_STROKES MARK_STROKE = none := by decide
  simp [on_stroked, hp, h1]

lemma m_on_stroked_repeat_to (t : MState) (hp : t.processing = false) :
    on_stroked t REPEAT_TO_STROKE = repeat_from_mark t := by
  have h1 : lookupRepeat REPEAT_STROKES REPEAT_TO_STROKE = none := by decide
  have h2 : REPEAT_TO_STROKE ≠ MARK_STROKE := by decide
  simp [on_stroked, hp, h1, h2]

lemma m_on_stroked_noncommand (t : MState) (x : String) (hp : t.processing = false)
    (hc : isCommand x = false) :
    on_stroked t x =
      ({ t with stroke_history := dequeAppend MAX_HISTORY t.stroke_history x }, []) := by
  obtain ⟨h1, h2, h3⟩ := m_isCommand_false_elim hc
  simp [on_stroked, hp, h1, h2, h3]

lemma m_runStrokes_cons (t : MState) (x : String) (l : List String) :
    runStrokes t (x :: l) = runStrokes (on_stroked t x).1 l := rfl

lemma m_runStrokes_noncommand :
    ∀ (ks : List String) (t : MState), t.processing = false →
      (∀ x ∈ ks, isCommand x = false) →
      t.stroke_history.length + ks.length ≤ MAX_HISTORY →
      runStrokes t ks = { t with stroke_history := t.stroke_history ++ ks } := by
  intro ks
  induction ks with
  | nil =>
      intro t _ _ _
      show t = { t with stroke_history := t.stroke_history ++ [] }
      cases t
      simp
  | cons x rest ih =>
      intro t hp hall hlen
      simp only [List.length_cons] at hlen
      have hde : dequeAppend MAX_HISTORY t.stroke_history x = t.stroke_history ++ [x] := by
        unfold PloverRepeat.dequeAppend
        rw [if_neg (by simp only [List.length_append, List.length_singleton]; omega)]
      have h1 : (on_stroked t x).1 = { t with stroke_history := t.stroke_history ++ [x] } := by
        rw [m_on_stroked_noncommand t x hp (hall x (by simp))]
        simp [hde]
      rw [m_runStrokes_cons, h1,
        ih { t with stroke_history := t.stroke_history ++ [x] } hp
          (fun y hy => hall y (List.mem_cons_of_mem _ hy))
          (by simp; omega)]
      simp

end MarkVariant

/-! ### Claim theorems -/

namespace PloverRepeat

/-- C4: for every stroke event delivered while the reentrancy guard is set,
`on_stroked` returns immediately with no state change and no ReplayPort call,
in both variants (in particular history, mark, recording flag and memory
buffer are untouched and no command is interpreted). -/
theorem c4_guard_suppresses_everything :
    (∀ (emitOk : Nat → Bool) (s : EngineState) (str : String),
      s.processing = true → on_stroked emitOk s str = (s, [])) ∧
    (∀ (t : MarkVariant.MState) (str : String),
      t.processing = true → MarkVariant.on_stroked t str = (t, [])) := by
  constructor
  · intro emitOk s str h
    simp [on_stroked, h]
  · intro t str h
    simp [MarkVariant.on_stroked, h]

/-- Closed witness for C4 at a concrete guarded state. -/
theorem c4_guard_suppresses_everything_witness :
    ({ initState with processing := true } : EngineState).processing = true ∧
      on_stroked allOk { initState with processing := true } "RA*PT" =
        ({ initState with processing := true }, []) :=
  ⟨rfl, c4_guard_suppresses_everything.1 allOk { initState with processing := true } "RA*PT" rfl⟩

/-- C3 (amended): `start` truncates the on-disk history file before
`load_history` runs, so the load reads the freshly wiped file and the
in-memory history is left exactly as it was (empty for a fresh instance),
regardless of the prior file contents. -/
theorem c3_start_clear_then_load (s : EngineState) :
    (start s).stroke_history = s.stroke_history ∧ (start s).history_file = some [] := by
  simp [start, load_history]

/-- Counterexample to C3 as stated: with a non-empty prior file state
`["STROKE"]`, the in-memory history after `start` is empty, not the
previously persisted sequence. -/
theorem c3_clear_precedes_load_counterexample :
    (start { initState with history_file := some ["STROKE"] }).stroke_history = [] ∧
      ¬((start { initState with history_file := some ["STROKE"] }).stroke_history
          = ["STROKE"]) := by
  decide

/-- C6: handling the undo command stroke removes exactly the most recent entry
from history when history is non-empty and immediately persists the shortened
history; on empty history it is a no-op; in both cases it produces no
ReplayPort call and leaves the recording flag and memory buffer unchanged. -/
theorem c6_undo_pops_most_recent (emitOk : Nat → Bool) (s : EngineState)
    (h : s.processing = false) :
    (on_stroked emitOk s UNDO_STROKE).2 = [] ∧
    (0 < s.stroke_history.length →
      (on_stroked emitOk s UNDO_STROKE).1 =
        { s with
            stroke_history := s.stroke_history.dropLast,
            history_file := some s.stroke_history.dropLast }) ∧
    (s.stroke_history.length = 0 → (on_stroked emitOk s UNDO_STROKE).1 = s) := by
  rw [on_stroked_undo_stroke emitOk s h]
  by_cases hh : 0 < s.stroke_history.length
  · rw [if_pos hh]
    exact ⟨rfl, fun _ => rfl, fun h0 => absurd h0 (by omega)⟩
  · rw [if_neg hh]
    exact ⟨rfl, fun h0 => absurd h0 hh, fun _ => rfl⟩

/-- Closed witness for C6 at a concrete two-entry history. -/
theorem c6_undo_pops_most_recent_witness :
    ({ initState with stroke_history := ["A", "B"] } : EngineState).processing = false ∧
      0 < (["A", "B"] : List String).length ∧
      (on_stroked allOk { initState with stroke_history := ["A", "B"] } UNDO_STROKE).1 =
        { initState with stroke_history := ["A"], history_file := some ["A"] } :=
  ⟨rfl, by decide,
    ((c6_undo_pops_most_recent allOk { initState with stroke_history := ["A", "B"] } rfl).2.1
      (by decide)).trans (by decide)⟩

/-- C10: the memory-paste command replays the parsed contents of the memory
file but leaves the memory buffer, the recording flag — indeed the whole
engine state — unchanged, so pasting twice in a row replays the same sequence
both times. -/
theorem c10_paste_keeps_memory (s : EngineState) (h : s.processing = false) :
    emittedStrokes (on_stroked allOk s MEMORY_PASTE_STROKE).2 = load_memory s ∧
    (on_stroked allOk s MEMORY_PASTE_STROKE).1 = s ∧
    emittedStrokes
        (on_stroked allOk (on_stroked allOk s MEMORY_PASTE_STROKE).1
          MEMORY_PASTE_STROKE).2 =
      emittedStrokes (on_stroked allOk s MEMORY_PASTE_STROKE).2 := by
  have hstep := on_stroked_paste allOk s h
  have hfst : (on_stroked allOk s MEMORY_PASTE_STROKE).1 = s := by
    rw [hstep]
    exact engine_eta s h
  refine ⟨?_, hfst, ?_⟩
  · rw [hstep]
    simp [replay_emits_allOk]
  · rw [hfst]

/-- Closed witness for C10 with a two-entry memory file. -/
theorem c10_paste_keeps_memory_witness :
    ({ initState with memory_file := some ["M1", "M2"] } : EngineState).processing = false ∧
      emittedStrokes
          (on_stroked allOk { initState with memory_file := some ["M1", "M2"] }
            MEMORY_PASTE_STROKE).2 = ["M1", "M2"] :=
  ⟨rfl,
    ((c10_paste_keeps_memory { initState with memory_file := some ["M1", "M2"] } rfl).1).trans
      (by decide)⟩

/-- C1: handling a repeat-N command stroke sends exactly one undo call first;
when the history holds at least N entries the last N entries are then emitted
in their original relative order, and when N exceeds the history length there
are zero emissions while the single undo still fires; history is unchanged in
both sub-cases. -/
theorem c1_repeat_n_undo_then_replay (s : EngineState) (str : String) (n : Nat)
    (hp : s.processing = false) (hn : lookupRepeat REPEAT_STROKES str = some n) :
    undoCount (on_stroked allOk s str).2 = 1 ∧
    (n ≤ s.stroke_history.length →
      (on_stroked allOk s str).2 =
        Event.setGuard true :: Event.undoCall :: Event.setGuard false :: Event.setGuard true ::
          ((s.stroke_history.drop (s.stroke_history.length - n)).map Event.emitCall ++
            [Event.setGuard false]) ∧
      emittedStrokes (on_stroked allOk s str).2 =
        s.stroke_history.drop (s.stroke_history.length - n)) ∧
    (s.stroke_history.length < n →
      (on_stroked allOk s str).2 =
        [Event.setGuard true, Event.undoCall, Event.setGuard false] ∧
      emittedStrokes (on_stroked allOk s str).2 = []) ∧
    (on_stroked allOk s str).1.stroke_history = s.stroke_history := by
  have h1 : 1 ≤ n := repeat_lookup_pos hn
  rw [on_stroked_repeat allOk s str n hp hn]
  by_cases hlt : s.stroke_history.length < n
  · rw [if_pos hlt]
    exact ⟨by simp, fun hle => absurd hle (by omega), fun _ => ⟨rfl, by simp⟩, rfl⟩
  · rw [if_neg hlt]
    have hs : pySliceLastN s.stroke_history n =
        s.stroke_history.drop (s.stroke_history.length - n) := by
      unfold pySliceLastN
      rw [if_neg (by omega)]
    refine ⟨?_, fun _ => ⟨?_, ?_⟩, fun hgt => absurd hgt (by omega), rfl⟩
    · simp [replay_emits_allOk, hs]
    · simp [replay_emits_allOk, hs]
    · simp [replay_emits_allOk, hs]

/-- Closed witness for C1: repeat-2 on a three-entry history. -/
theorem c1_repeat_n_undo_then_replay_witness :
    ({ initState with stroke_history := ["A", "B", "C"] } : EngineState).processing = false ∧
      lookupRepeat REPEAT_STROKES "RO*PT" = some 2 ∧
      undoCount
          (on_stroked allOk { initState with stroke_history := ["A", "B", "C"] } "RO*PT").2 = 1 ∧
      emittedStrokes
          (on_stroked allOk { initState with stroke_history := ["A", "B", "C"] } "RO*PT").2 =
        ["B", "C"] :=
  ⟨rfl, by decide,
   (c1_repeat_n_undo_then_replay { initState with stroke_history := ["A", "B", "C"] }
      "RO*PT" 2 rfl (by decide)).1,
   ((c1_repeat_n_undo_then_replay { initState with stroke_history := ["A", "B", "C"] }
      "RO*PT" 2 rfl (by decide)).2.1 (by decide)).2.trans (by decide)⟩

/-- Counterexample to C2 as stated: after starting a recording with the memory
command and mirroring one stroke, invoking the memory command again produces
zero emissions and leaves the memory buffer non-empty, instead of replaying
the mirrored sequence and clearing the buffer. -/
theorem c2_single_gated_command_counterexample :
    emittedStrokes (on_stroked allOk (runStrokes initState ["PO*FP", "S1"]) "PO*FP").2 = [] ∧
    (on_stroked allOk (runStrokes initState ["PO*FP", "S1"]) "PO*FP").1.memory_file =
      some ["S1"] ∧
    ¬(emittedStrokes (on_stroked allOk (runStrokes initState ["PO*FP", "S1"]) "PO*FP").2 =
        ["S1"] ∧
      (on_stroked allOk (runStrokes initState ["PO*FP", "S1"]) "PO*FP").1.memory_file =
        some []) := by
  decide

/-- C2 (amended): memory is handled by three distinct commands, not one
emptiness-gated command.  The toggle command unconditionally flips the
recording flag after a single undo, with no emission and no buffer change;
while recording, each non-command stroke is mirrored into the memory buffer
and appended to history; the paste command replays the buffer in order and
leaves the whole state unchanged; the reset command clears the buffer and
turns recording off. -/
theorem c2_memory_three_commands :
    (∀ s : EngineState, s.processing = false →
      (on_stroked allOk s MEMORY_TOGGLE_STROKE).1 =
        { s with is_recording_memory := !s.is_recording_memory, processing := false } ∧
      emittedStrokes (on_stroked allOk s MEMORY_TOGGLE_STROKE).2 = [] ∧
      undoCount (on_stroked allOk s MEMORY_TOGGLE_STROKE).2 = 1) ∧
    (∀ (s : EngineState) (x : String), s.processing = false →
      s.is_recording_memory = true → isCommand x = false →
      (on_stroked allOk s x).1.memory_file = some (s.memory_file.getD [] ++ [x]) ∧
      (on_stroked allOk s x).1.stroke_history =
        dequeAppend MAX_HISTORY s.stroke_history x) ∧
    (∀ s : EngineState, s.processing = false →
      emittedStrokes (on_stroked allOk s MEMORY_PASTE_STROKE).2 = load_memory s ∧
      (on_stroked allOk s MEMORY_PASTE_STROKE).1 = s) ∧
    (∀ s : EngineState, s.processing = false →
      (on_stroked allOk s MEMORY_RESET_STROKE).1 =
        { s with memory_file := some [], is_recording_memory := false, processing := false }) := by
  refine ⟨?_, ?_, ?_, ?_⟩
  · intro s hp
    rw [on_stroked_toggle allOk s hp]
    exact ⟨rfl, rfl, by simp⟩
  · intro s x hp hr hc
    rw [on_stroked_noncommand allOk s x hp hc]
    simp [hr]
  · intro s hp
    have hstep := on_stroked_paste allOk s hp
    have hfst : (on_stroked allOk s MEMORY_PASTE_STROKE).1 = s := by
      rw [hstep]
      exact engine_eta s hp
    refine ⟨?_, hfst⟩
    rw [hstep]
    simp [replay_emits_allOk]
  · intro s hp
    rw [on_stroked_reset allOk s hp]

/-- Closed witness for the amended C2: toggling from the initial state turns
recording on with no emission. -/
theorem c2_memory_three_commands_witness :
    initState.processing = false ∧
      (on_stroked allOk initState MEMORY_TOGGLE_STROKE).1 =
        { initState with is_recording_memory := true } :=
  ⟨rfl, (c2_memory_three_commands.1 initState rfl).1.trans (by decide)⟩

/-- C5: the history length never exceeds `MAX_HISTORY` for any input sequence;
and after `MAX_HISTORY + 1` non-command strokes the oldest one is evicted: the
history equals the last `MAX_HISTORY` strokes in insertion order, and (for
pairwise-distinct strokes) the first stroke is absent. -/
theorem c5_history_bounded_with_eviction :
    (∀ l : List String,
      (runStrokes initState l).stroke_history.length ≤ MAX_HISTORY) ∧
    (∀ l : List String, l.length = MAX_HISTORY + 1 →
      (∀ x ∈ l, isCommand x = false) →
      (runStrokes initState l).stroke_history = l.drop 1 ∧
      ∀ h0 t, l = h0 :: t → l.Nodup →
        h0 ∉ (runStrokes initState l).stroke_history) := by
  constructor
  · intro l
    exact runStrokes_length_le l initState (by simp [initState])
  · intro l hlen hall
    have hrun := (runStrokes_noncommand l initState rfl hall).1
    have hhist : (runStrokes initState l).stroke_history = l.drop 1 := by
      rw [hrun]
      simp only [initState]
      rw [foldl_dequeAppend_rtake MAX_HISTORY l [] (by simp)]
      simp only [List.nil_append, List.rtake, hlen]
      simp [MAX_HISTORY]
    refine ⟨hhist, ?_⟩
    intro h0 t hl hnd
    rw [hhist, hl]
    rw [hl] at hnd
    simpa using (List.nodup_cons.mp hnd).1

/-- Closed witness for C5: 101 distinct non-command strokes leave exactly the
last 100 in order. -/
theorem c5_history_bounded_with_eviction_witness :
    wStrokes.length = MAX_HISTORY + 1 ∧
      (runStrokes initState wStrokes).stroke_history = wStrokes.drop 1 :=
  ⟨by decide,
   (c5_history_bounded_with_eviction.2 wStrokes (by decide) (by decide)).1⟩

/-- C7: in every replay batch the guard is set before the first synthesized
event and cleared afterwards for every port behavior, including ones that
raise partway; the emitted calls are always a prefix of the batch, the full
batch when nothing raises, and exactly the calls up to and including the first
raising one otherwise; `send_undo` behaves the same way; and after any handled
stroke the guard is clear again, so subsequent independent strokes are
processed normally. -/
theorem c7_guard_always_released (emitOk : Nat → Bool) (s : EngineState)
    (strokes : List String) :
    ((replay_strokes emitOk s strokes).2 =
        Event.setGuard true :: (replay_emits emitOk 0 strokes ++ [Event.setGuard false]) ∧
      ∀ e ∈ replay_emits emitOk 0 strokes, ∃ x, e = Event.emitCall x) ∧
    (∃ k, emittedStrokes (replay_strokes emitOk s strokes).2 = strokes.take k) ∧
    ((∀ j, emitOk j = true) →
      emittedStrokes (replay_strokes emitOk s strokes).2 = strokes) ∧
    (∀ i, i < strokes.length → (∀ j, j < i → emitOk j = true) → emitOk i = false →
      emittedStrokes (replay_strokes emitOk s strokes).2 = strokes.take (i + 1)) ∧
    (replay_strokes emitOk s strokes).1 = { s with processing := false } ∧
    (send_undo s).2 = [Event.setGuard true, Event.undoCall, Event.setGuard false] ∧
    (send_undo s).1 = { s with processing := false } ∧
    (∀ str, s.processing = false → ((on_stroked emitOk s str).1).processing = false) := by
  refine ⟨⟨rfl, replay_emits_is_emit emitOk strokes 0⟩, ?_, ?_, ?_, rfl, rfl, rfl, ?_⟩
  · obtain ⟨k, hk⟩ := replay_emits_take emitOk strokes 0
    exact ⟨k, by simp [replay_strokes, hk]⟩
  · intro hall
    simp [replay_strokes, replay_emits_of_all_true emitOk hall]
  · intro i hi hok hfail
    have hf := replay_emits_fail emitOk strokes 0 i hi
      (fun j hj => by simpa using hok j hj) (by simpa using hfail)
    simp [replay_strokes, hf]
  · intro str hp
    exact on_stroked_processing emitOk s str hp

/-- Closed witness for C7: an oracle that raises on the second emit call
aborts the batch after two invocations. -/
theorem c7_guard_always_released_witness :
    failAt1 1 = false ∧
      emittedStrokes (replay_strokes failAt1 initState ["A", "B", "C"]).2 =
        (["A", "B", "C"] : List String).take 2 :=
  ⟨by decide,
   (c7_guard_always_released failAt1 initState ["A", "B", "C"]).2.2.2.1 1 (by decide)
     (fun j hj => by
       have hj0 : j = 0 := by omega
       subst hj0
       decide)
     (by decide)⟩

/-- C8: saving a history with `save_history` and loading the resulting file
with `load_history` into an empty engine reproduces the same ordered sequence
of identifiers, for any history of valid stroke identifiers (non-empty, no
surrounding whitespace) that fits in the deque. -/
theorem c8_persistence_round_trip (l : List String) (hlen : l.length ≤ MAX_HISTORY)
    (hid : ∀ x ∈ l, pyStrip x = x ∧ x ≠ "") :
    (load_history
        { initState with
            history_file :=
              (save_history
                { initState with stroke_history := l }).history_file }).stroke_history = l := by
  have hmap : l.map pyStrip = l := by
    calc l.map pyStrip = l.map id := List.map_congr_left (fun a ha => (hid a ha).1)
      _ = l := l.map_id
  have hfil : l.filter (fun x => x ≠ "") = l :=
    List.filter_eq_self.mpr (fun a ha => by simp [(hid a ha).2])
  simp only [save_history, load_history]
  rw [hmap, hfil]
  simp only [initState]
  rw [foldl_dequeAppend_no_evict MAX_HISTORY l [] (by simpa using hlen)]
  simp

/-- Closed witness for C8 on a concrete two-entry history. -/
theorem c8_persistence_round_trip_witness :
    (["TEFT", "KAT"] : List String).length ≤ MAX_HISTORY ∧
      (load_history
          { initState with
              history_file :=
                (save_history
                  { initState with
                      stroke_history := ["TEFT", "KAT"] }).history_file }).stroke_history =
        ["TEFT", "KAT"] :=
  ⟨by decide, c8_persistence_round_trip ["TEFT", "KAT"] (by decide) (by decide)⟩

end PloverRepeat

namespace MarkVariant

open PloverRepeat (Event emittedStrokes dequeAppend MAX_HISTORY REPEAT_STROKES lookupRepeat)


/-- C9: the mark command does set Mark to the current history length (that
half is implemented, `__init__.py` line 57), but `repeat_from_mark` — the
function the repeat-to-mark branch calls — has an empty `pass` body despite
its docstring "Repeat all strokes from mark to current position".  At the
failing input (mark set at history length 1, then "B" and "C" appended, then
the repeat-to-mark stroke) the repeat-to-mark event emits nothing and changes
nothing, instead of replaying the two strokes appended after the mark. -/
theorem c9_repeat_to_mark_stub_noop :
    (on_stroked ⟨["A"], none, false⟩ MARK_STROKE).1 = ⟨["A"], some 1, false⟩ ∧
    runStrokes ⟨["A"], some 1, false⟩ ["B", "C"] = ⟨["A", "B", "C"], some 1, false⟩ ∧
    on_stroked ⟨["A", "B", "C"], some 1, false⟩ REPEAT_TO_STROKE =
      (⟨["A", "B", "C"], some 1, false⟩, []) ∧
    emittedStrokes
        (on_stroked ⟨["A", "B", "C"], some 1, false⟩ REPEAT_TO_STROKE).2 = [] := by
  decide

end MarkVariant
